import Mathlib

/-!
Verification of the jp-dict extraction core (src/data_cleaner.rs, src/obunsha_dict.rs,
src/parser.rs) against its natural-language specification.

Strings are modelled as `List Char`; Rust byte indices are modelled through
`Char.utf8Size`.  The HTML/CSS selector engine (the external `scraper` crate) is
modelled abstractly: a parsed document is a list of nodes in document order, each
carrying its class list and flattened text, plus the attribute values the code reads.
Everything the repository itself computes (sanitizers, headline decomposition,
fallback chains, boundary detection, counters) is translated directly from the source.
-/

namespace JpDict

/-- The Unicode `White_Space` code points, as recognised by Rust's
`char::is_whitespace` (used by `str::trim` and the regex class `\s`). -/
def rustIsWhitespace (c : Char) : Bool :=
  let n := c.toNat
  (0x09 ≤ n && n ≤ 0x0D) || n == 0x20 || n == 0x85 || n == 0xA0 || n == 0x1680 ||
  (0x2000 ≤ n && n ≤ 0x200A) || n == 0x2028 || n == 0x2029 || n == 0x202F ||
  n == 0x205F || n == 0x3000

/-- Rust `str::trim`: remove leading and trailing whitespace. -/
def rustTrim (l : List Char) : List Char :=
  (l.dropWhile rustIsWhitespace).rdropWhile rustIsWhitespace

/-- The character list of a Lean string literal (used to transcribe Rust literals). -/
def strOf (s : String) : List Char := s.data

/-- Rust `str::contains(&str)`: substring occurrence test. -/
def listContains (hay needle : List Char) : Bool :=
  match hay with
  | [] => needle.isEmpty
  | _ :: t => needle.isPrefixOf hay || listContains t needle

/-- Char index of the first occurrence of a substring (used where the Rust code
immediately slices at the byte offset `find` returned; slicing after an ASCII
needle keeps byte and char arithmetic in step). -/
def findSub (hay needle : List Char) : Option Nat :=
  match hay with
  | [] => if needle.isEmpty then some 0 else none
  | _ :: t =>
    if needle.isPrefixOf hay then some 0
    else (findSub t needle).map (· + 1)

/-- UTF-8 byte length of a string, i.e. Rust `str::len`. -/
def byteLen (l : List Char) : Nat := (l.map Char.utf8Size).sum

/-- Rust `str::find(char)`: BYTE index of the first occurrence of `c`. -/
def rustFindChar (l : List Char) (c : Char) : Option Nat :=
  match l with
  | [] => none
  | x :: xs => if x = c then some 0 else (rustFindChar xs c).map (x.utf8Size + ·)

/-- Code-point index of the first occurrence of `c` (specification-side companion
of `rustFindChar`). -/
def charIdxOf (l : List Char) (c : Char) : Option Nat :=
  match l with
  | [] => none
  | x :: xs => if x = c then some 0 else (charIdxOf xs c).map (· + 1)

/-- Rust `s[..b].chars().count()` for a byte offset `b` that falls on a char boundary:
the number of code points in the first `b` bytes. -/
def charsInBytes (l : List Char) (b : Nat) : Nat :=
  match l with
  | [] => 0
  | x :: xs => if x.utf8Size ≤ b then charsInBytes xs (b - x.utf8Size) + 1 else 0

/-- Join a list of strings with a single separator character
(Rust `Vec::join` on one-char separators). -/
def joinWith (sep : Char) : List (List Char) → List Char
  | [] => []
  | [x] => x
  | x :: y :: xs => x ++ sep :: joinWith sep (y :: xs)

/-- CJK Unified Ideographs range U+4E00–U+9FFF, the `kanji` test used throughout
the source (`data_cleaner.rs::is_likely_kanji_only`, `obunsha_dict.rs`). -/
def isKanjiChar (c : Char) : Bool := 0x4e00 ≤ c.toNat && c.toNat ≤ 0x9fff

/-- Hiragana range U+3040–U+309F. -/
def isHiragana (c : Char) : Bool := 0x3040 ≤ c.toNat && c.toNat ≤ 0x309f

/-- Katakana range U+30A0–U+30FF. -/
def isKatakana (c : Char) : Bool := 0x30a0 ≤ c.toNat && c.toNat ≤ 0x30ff

/-! Section: data_cleaner.rs -/

/-- The mutable state of `DataCleaner` (`redirect_map`, `valid_entries`,
`redirect_entries`, `boundary_reached`). -/
structure CleanerState where
  redirect_map : List (List Char × List Char)
  valid_entries : Nat
  redirect_entries : Nat
  boundary_reached : Bool
deriving DecidableEq

/-- Rust `DataCleaner::new()`. -/
def cleanerInit : CleanerState := ⟨[], 0, 0, false⟩

/-- Observable effect of processing one input line in `clean_exported_dict`:
either the line is written out as an entry (title + HTML, abstracted to the
emitting line), or the redirect branch ran and computed the given target.
Dropped lines produce no event. -/
inductive CleanEvent where
  | entryOut (line : List Char)
  | redirectSeen (target : List Char)
deriving DecidableEq

/-- Rust `"@@@LINK="`. -/
def redirectMarker : List Char := strOf "@@@LINK="

/-- Rust `"<link rel=\"stylesheet\""`, the marker `clean_exported_dict` uses to
recognise an HTML entry line. -/
def htmlMarker : List Char := strOf "<link rel=\x22stylesheet\x22"

/-- One iteration of the loop body of `DataCleaner::clean_exported_dict`:
blank lines are skipped; `@@@LINK=` lines strip-and-trim the target and bump
`redirect_entries` (the target is bound but stored nowhere); lines containing
the stylesheet marker are written out and bump `valid_entries`; everything else
is silently dropped.  `boundary_reached` and `redirect_map` are never touched. -/
def processLine (st : CleanerState) (line : List Char) :
    CleanerState × Option CleanEvent :=
  if (rustTrim line).isEmpty then (st, none)
  else if redirectMarker.isPrefixOf line then
    let target := rustTrim (line.drop redirectMarker.length)
    ({ st with redirect_entries := st.redirect_entries + 1 },
      some (CleanEvent.redirectSeen target))
  else if listContains line htmlMarker then
    ({ st with valid_entries := st.valid_entries + 1 },
      some (CleanEvent.entryOut line))
  else (st, none)

/-- Rust `DataCleaner::clean_exported_dict` over an in-memory list of input lines:
fold of `processLine`, collecting the emitted events in order. -/
def clean_exported_dict (lines : List (List Char)) :
    CleanerState × List CleanEvent :=
  lines.foldl
    (fun acc line =>
      let r := processLine acc.1 line
      (r.1, acc.2 ++ r.2.toList))
    (cleanerInit, [])

/-- Rust `DataCleaner::get_stats`: `(valid_entries, redirect_entries, redirect_map.len())`. -/
def get_stats (st : CleanerState) : Nat × Nat × Nat :=
  (st.valid_entries, st.redirect_entries, st.redirect_map.length)

/-- Rust `DataCleaner::extract_data_id`: find `data-id="`, then take up to the next `"`. -/
def extract_data_id (line : List Char) : Option (List Char) :=
  match findSub line (strOf "data-id=\x22") with
  | none => none
  | some i =>
    let rest := line.drop (i + 9)
    match charIdxOf rest '\x22' with
    | none => none
    | some j => some (rest.take j)

/-- Rust `DataCleaner::is_likely_kanji_only`: trim, then require at least one kanji and
a kanji proportion strictly above 80% of the code points.  The Rust code compares
`kanji_count as f32 / total as f32 > 0.8`; for the magnitudes involved this is
exactly the rational comparison `5 * kanji_count > 4 * total`. -/
def is_likely_kanji_only (line : List Char) : Bool :=
  let l := rustTrim line
  if l.isEmpty then false
  else
    let kanjiCount := (l.filter isKanjiChar).length
    let total := l.length
    decide (0 < kanjiCount) && decide (4 * total < 5 * kanjiCount)

/-- Rust `DataCleaner::is_boundary_reached`.  Note two properties of the source, kept
faithfully: the sentinel `data-id="3011400"` case returns `false` (the record is
processed first), and the short-kanji-line test measures the trimmed line's BYTE
length (`line.len() >= 1 && line.len() <= 3`), not its code-point count. -/
def is_boundary_reached (st : CleanerState) (line : List Char) : Bool :=
  if listContains line (strOf "data-id=") &&
      (extract_data_id line == some (strOf "3011400")) then
    false
  else
    let l := rustTrim line
    if 1 ≤ byteLen l ∧ byteLen l ≤ 3 ∧ is_likely_kanji_only l = true ∧
        0 < st.valid_entries then
      true
    else
      false

/-! Section: obunsha_dict.rs -/

/-- Rust `ObunshaDictDatabase::clean_kana_text`: which characters survive, given the
whole input text (the `'-' | '_'` arm consults `text` globally). -/
def keep_kana_char (text : List Char) (c : Char) : Bool :=
  if isHiragana c then true
  else if isKatakana c then true
  else if c = 'ー' then true
  else if c.isAlphanum then true
  else if (c = '-' || c = '_') && text.any Char.isAlpha then true
  else false

/-- Rust `ObunshaDictDatabase::clean_kana_text`. -/
def clean_kana_text (text : List Char) : List Char :=
  rustTrim (text.filter (keep_kana_char text))

/-- The "basic symbols" kept by `clean_kanji_text`. -/
def obunshaSymbols : List Char := ['・', '‧', '·', '-', 'ー']

/-- The marker glyphs explicitly dropped by `clean_kanji_text`. -/
def obunshaMarkers : List Char :=
  ['【', '】', '◇', '△', '▽', '▲', '▼', '○', '●', '◯',
   '□', '■', '▢', '▣', '◆', '※', '＊', '☆', '★']

/-- Rust `ObunshaDictDatabase::clean_kanji_text`: which characters survive.  The final
arm of the Rust match uses `char::is_alphanumeric`, a Unicode property table of
the Rust standard library; it is abstracted as the parameter `alnum`. -/
def keep_kanji_char (alnum : Char → Bool) (c : Char) : Bool :=
  if isKanjiChar c then true
  else if isHiragana c then true
  else if isKatakana c then true
  else if obunshaSymbols.contains c then true
  else if obunshaMarkers.contains c then false
  else alnum c

/-- Rust `ObunshaDictDatabase::clean_kanji_text`. -/
def clean_kanji_text (alnum : Char → Bool) (text : List Char) : List Char :=
  rustTrim (text.filter (keep_kanji_char alnum))

/-- The sanitizer contexts of the spec (§4.2): `Reading` keeps kana/ASCII-alnum,
`Script` keeps kanji/kana/symbols. -/
inductive SanitizeCtx where
  | reading
  | script
deriving DecidableEq

/-- The spec's `sanitize(text, context)`, realised in the source by
`clean_kana_text` (reading context) and `clean_kanji_text` (script context). -/
def sanitize (alnum : Char → Bool) : SanitizeCtx → List Char → List Char
  | SanitizeCtx.reading, t => clean_kana_text t
  | SanitizeCtx.script, t => clean_kanji_text alnum t

/-- Rust `ObunshaDictDatabase::parse_headline`, byte-faithful: `find('【')` and
`find('】')` return byte indices, compared as bytes, then converted to char
indices by counting the chars of the byte-prefix, exactly as the source does.
When the bracket branch does not return, control falls through to the
no-bracket rule. -/
def parse_headline (headline : List Char) : Option (List Char × List Char) :=
  let h := rustTrim headline
  let bracketCase : Option (List Char × List Char) :=
    match rustFindChar h '【' with
    | none => none
    | some start =>
      match rustFindChar h '】' with
      | none => none
      | some stop =>
        if start < stop then
          let startChar := charsInBytes h start
          let endChar := charsInBytes h stop
          if startChar < endChar ∧ startChar < h.length ∧ endChar < h.length then
            let kana := h.take startChar
            let kanji := (h.drop (startChar + 1)).take (endChar - (startChar + 1))
            if kana ≠ [] then some (kana, kanji) else none
          else none
        else none
  match bracketCase with
  | some r => some r
  | none =>
    if h ≠ [] ∧ ¬ (h.any isKanjiChar = true) then some (h, []) else none

/-- Specification-side restatement of the headline parser, written with
code-point indices throughout: first `【`, first `】`, bracket branch applies
when the open delimiter precedes the close delimiter and the raw text before
the open delimiter is non-empty; otherwise the whole trimmed line is the
reading when it contains no kanji, else the parse fails. -/
def parse_headline_spec (headline : List Char) : Option (List Char × List Char) :=
  let h := rustTrim headline
  let fb : Option (List Char × List Char) :=
    if h ≠ [] ∧ ¬ (h.any isKanjiChar = true) then some (h, []) else none
  match charIdxOf h '【', charIdxOf h '】' with
  | some i, some j =>
    if i < j ∧ h.take i ≠ [] then
      some (h.take i, (h.drop (i + 1)).take (j - i - 1))
    else fb
  | some _, none => fb
  | none, _ => fb

/-- A node of a parsed markup block: its CSS classes and its flattened text
(`element.text().collect()`), in document order inside `MarkupDoc.nodes`.
This abstracts the external `scraper` crate's document tree. -/
structure MNode where
  classes : List (List Char)
  text : List Char
deriving DecidableEq

/-- A parsed markup block as read by `obunsha_dict.rs`: the `container`
attributes, the element list in document order, and the flattened text of the
whole fragment (`root_element().text()`). -/
structure MarkupDoc where
  dataId : Option (List Char)
  dataType : Option (List Char)
  nodes : List MNode
  rootText : List Char
  rawHtml : List Char
deriving DecidableEq

/-- Rust `document.select(".cls").next()`: text of the first node carrying the class. -/
def selectFirstText (nodes : List MNode) (cls : List Char) : Option (List Char) :=
  (nodes.find? (fun n => n.classes.contains cls)).map MNode.text

/-- The fixed ordered list of meaning selectors (same list in
`obunsha_dict.rs::extract_definition_text` and `parser.rs::extract_meaning`). -/
def meaningSelectors : List (List Char) :=
  [strOf "mean_normal", strOf "mean_lv_2", strOf "mean_lv_1",
   strOf "mean_no_1", strOf "mean_no_2", strOf "mean_no_3"]

/-- The nested loops collecting meaning texts: for each selector in order, for
each matching node in document order, push the trimmed text when non-empty. -/
def collectMeanings (nodes : List MNode) : List (List Char) :=
  meaningSelectors.foldl
    (fun acc sel =>
      nodes.foldl
        (fun acc2 n =>
          if n.classes.contains sel then
            let t := rustTrim n.text
            if t = [] then acc2 else acc2 ++ [t]
          else acc2)
        acc)
    []

/-- Specification-side description of one selector's contribution: the trimmed
texts of its matching nodes in document order, empties skipped. -/
def meaningTextsOf (nodes : List MNode) (sel : List Char) : List (List Char) :=
  nodes.filterMap
    (fun n =>
      if n.classes.contains sel then
        let t := rustTrim n.text
        if t = [] then none else some t
      else none)

/-- Rust `ObunshaDictDatabase::extract_definition_text`. -/
def extract_definition_text (doc : MarkupDoc) : List Char :=
  let meanings := collectMeanings doc.nodes
  if meanings = [] then rustTrim doc.rootText else joinWith ' ' meanings

/-- The amended description of `extract_definition_text`: concatenation grouped
by selector in the fixed priority order (document order within each selector),
empty-after-trim texts skipped, joined with a single space; full flattened
trimmed text when no selector matches. -/
def extract_definition_text_grouped (doc : MarkupDoc) : List Char :=
  let ms := (meaningSelectors.map (meaningTextsOf doc.nodes)).flatten
  if ms = [] then rustTrim doc.rootText else joinWith ' ' ms

/-- What the claim (and spec §4.4) says `definition_text` is: the text of every
node matching any meaning marker, in document order, joined with a single
space, with the full flattened text as fallback. -/
def doc_order_definition_spec (doc : MarkupDoc) : List Char :=
  let ms := (doc.nodes.filter
      (fun n => meaningSelectors.any (fun s => n.classes.contains s))).map MNode.text
  if ms = [] then doc.rootText else joinWith ' ' ms

/-- The fields of `ObunshaDictEntry` that the extraction core computes. -/
structure ObunshaDictEntry where
  data_id : List Char
  data_type : List Char
  headword : List Char
  kana_reading : Option (List Char)
  kanji_writing : Option (List Char)
  part_of_speech : Option (List Char)
  conjugation : Option (List Char)
  definition_html : List Char
  definition_text : List Char
  raw_mdx_content : List Char
deriving DecidableEq

/-- Sanitize-and-keep-if-nonempty step used by the markup fallbacks. -/
def kanaCleanedNonempty (t : List Char) : Option (List Char) :=
  let c := clean_kana_text t
  if c = [] then none else some c

/-- Rust `ObunshaDictDatabase::parse_entry_from_html`.  The mandatory `data-id`
attribute aborts the parse when absent; the headline-derived reading/script take
priority; markup selectors are consulted only for the still-missing fields. -/
def parse_entry_from_html (alnum : Char → Bool) (title : List Char)
    (doc : MarkupDoc) : Option ObunshaDictEntry :=
  match doc.dataId with
  | none => none
  | some data_id =>
    let data_type := doc.dataType.getD (strOf "unknown")
    let hl := parse_headline title
    let kana0 : Option (List Char) := hl.map Prod.fst
    let kanji0 : Option (List Char) := hl.map Prod.snd
    let kana1 : Option (List Char) :=
      match kana0 with
      | some k => some k
      | none =>
        match selectFirstText doc.nodes (strOf "headword_kana") with
        | some t => kanaCleanedNonempty t
        | none => none
    let kanji1 : Option (List Char) :=
      match kanji0 with
      | some k => some k
      | none =>
        match selectFirstText doc.nodes (strOf "headword_hyouki") with
        | some t =>
          let c := clean_kanji_text alnum t
          if c = [] then none else some c
        | none => none
    let kana2 : Option (List Char) :=
      match kana1 with
      | some k => some k
      | none =>
        match selectFirstText doc.nodes (strOf "headword_ryaku") with
        | some t => kanaCleanedNonempty t
        | none => none
    let pos : Option (List Char) :=
      match selectFirstText doc.nodes (strOf "pos_s") with
      | some t => let c := rustTrim t; if c = [] then none else some c
      | none => none
    let katsuyo : Option (List Char) :=
      match selectFirstText doc.nodes (strOf "katsuyo") with
      | some t => let c := rustTrim t; if c = [] then none else some c
      | none => none
    some
      { data_id := data_id
        data_type := data_type
        headword := title
        kana_reading := kana2
        kanji_writing := kanji1
        part_of_speech := pos
        conjugation := katsuyo
        definition_html := doc.rawHtml
        definition_text := extract_definition_text doc
        raw_mdx_content := title ++ '\n' :: doc.rawHtml }

/-- First `some` of a list of candidates: the specification's "ordered fallback
chain, first selector yielding non-empty sanitized text wins". -/
def firstSome (cands : List (Option (List Char))) : Option (List Char) :=
  (cands.filterMap id).head?

/-! Section: parser.rs -/

/-- Rust `DictParser::clean_kana`: trim, then delete every `・`, ASCII hyphen and
whitespace character (the regex `[・\-\s]+` replaced by the empty string). -/
def clean_kana (k : List Char) : List Char :=
  (rustTrim k).filter
    (fun c => !(c = '・' || c = '-' || rustIsWhitespace c))

/-- The characters deleted by `DictParser::clean_kanji` (the regex class
`[【】〔〕（）()〖〗]` plus the chained single-glyph `replace` calls). -/
def parserKanjiStrip : List Char :=
  ['【', '】', '〔', '〕', '（', '）', '(', ')', '〖', '〗',
   '◇', '△', '▽', '▲', '◆', '■', '●', '○', '□', '◎',
   '※', '★', '☆', '♦', '♠', '♣', '♥']

/-- Rust `DictParser::clean_kanji`: delete the decorations, then `None` if the trimmed
remainder is empty, else `Some` of the trimmed remainder. -/
def clean_kanji (k : List Char) : Option (List Char) :=
  let cleaned := (rustTrim k).filter (fun c => !(parserKanjiStrip.contains c))
  if rustTrim cleaned = [] then none else some (rustTrim cleaned)

/-- A parsed `jpdict.txt` record as read by `parser.rs`: the text of the first
`.head_kana` element, the first-element texts of the five kanji selectors in
their fixed order, the `<b>…</b>` capture list, the node list for the meaning
selectors, the joined all-elements text used by the `*` fallback, and the
markers deciding `entry_type`. -/
structure DictDoc where
  headKana : Option (List Char)
  kanjiTexts : List (Option (List Char))
  pronunciationMatches : List (List Char)
  nodes : List MNode
  allText : List Char
  containsItemKanji : Bool
  containsItemIppan : Bool
  containsItemKiso : Bool
  rawHtml : List Char
deriving DecidableEq

/-- Rust `DictParser::extract_pronunciation`: join the `<b>` captures with `・`,
`None` when there are none. -/
def extract_pronunciation (doc : DictDoc) : Option (List Char) :=
  if doc.pronunciationMatches = [] then none
  else some (joinWith '・' doc.pronunciationMatches)

/-- Rust `DictParser::extract_meaning`: same meaning-selector loop as
`extract_definition_text`, falling back to the space-joined text of every
element (the `*` selector), trimmed. -/
def extract_meaning (doc : DictDoc) : List Char :=
  let meanings := collectMeanings doc.nodes
  if meanings = [] then rustTrim doc.allText else joinWith ' ' meanings

/-- The kanji-selector loop of `DictParser::parse_entry`: first selector whose
element's cleaned text is `Some` wins; selectors without an element, or whose
cleaned text is `None`, are passed over. -/
def findKanjiForm : List (Option (List Char)) → Option (List Char)
  | [] => none
  | none :: rest => findKanjiForm rest
  | some t :: rest =>
    match clean_kanji t with
    | some k => some k
    | none => findKanjiForm rest

/-- The `entry_type` classification of `DictParser::parse_entry`. -/
def entryTypeOf (doc : DictDoc) : List Char :=
  if doc.containsItemKanji then strOf "item_kanji"
  else if doc.containsItemIppan then strOf "item_ippan"
  else if doc.containsItemKiso then strOf "item_kiso"
  else strOf "unknown"

/-- The fields of `database.rs::DictionaryEntry` that `parse_entry` computes. -/
structure DictionaryEntry where
  kana_entry : List Char
  kanji_form : Option (List Char)
  meaning : List Char
  pronunciation : Option (List Char)
  entry_type : List Char
  raw_html : List Char
deriving DecidableEq

/-- Rust `DictParser::parse_entry`: abort when the `.head_kana` element is missing,
when the cleaned kana is empty, or when the extracted meaning is empty. -/
def parse_entry (doc : DictDoc) : Option DictionaryEntry :=
  match doc.headKana with
  | none => none
  | some rawKana =>
    let cleaned := clean_kana rawKana
    if cleaned = [] then none
    else
      let kanjiForm := findKanjiForm doc.kanjiTexts
      let pron := extract_pronunciation doc
      let meaning := extract_meaning doc
      if meaning = [] then none
      else
        some
          { kana_entry := cleaned
            kanji_form := kanjiForm
            meaning := meaning
            pronunciation := pron
            entry_type := entryTypeOf doc
            raw_html := doc.rawHtml }

/-! Section: Concrete sample inputs used by the claim theorems -/

/-- A valid lexicon record line (contains the stylesheet marker). -/
def c1Line : List Char :=
  strOf "<link rel=\x22stylesheet\x22 href=\x22o.css\x22><container data-id=\x221000\x22>ことば"

/-- The sentinel record line: carries `data-id="3011400"`. -/
def c2Sentinel : List Char :=
  strOf "<link rel=\x22stylesheet\x22><container data-id=\x223011400\x22>ヴォ"

/-- A lexicon record line appearing after the sentinel. -/
def c2After : List Char :=
  strOf "<link rel=\x22stylesheet\x22><container data-id=\x223011500\x22>あと"

/-- Specification-side count of skip/malformed events in one cleaner run: the
input lines that are neither blank, nor redirect records, nor HTML entry lines,
and hence are silently dropped by `clean_exported_dict`. -/
def spec_skipped_count (lines : List (List Char)) : Nat :=
  (lines.filter
    (fun l => !(rustTrim l).isEmpty && !(redirectMarker.isPrefixOf l) &&
      !(listContains l htmlMarker))).length

/-- A markup block whose document order puts a `mean_lv_2` node before a
`mean_normal` node. -/
def c6Doc : MarkupDoc :=
  { dataId := some (strOf "1")
    dataType := none
    nodes :=
      [{ classes := [strOf "mean_lv_2"], text := strOf "B" },
       { classes := [strOf "mean_normal"], text := strOf "A" }]
    rootText := []
    rawHtml := [] }

/-- A headline whose pre-bracket and in-bracket texts carry a decorative glyph. -/
def c4Title : List Char := strOf "★あ【★愛】"

/-- A minimal markup block carrying only the mandatory `data-id`. -/
def c4Doc : MarkupDoc :=
  { dataId := some (strOf "9"), dataType := none, nodes := [], rootText := [],
    rawHtml := [] }

/-- The entry `parse_entry_from_html` produces for `c4Title`/`c4Doc`. -/
def c4Entry : ObunshaDictEntry :=
  { data_id := strOf "9"
    data_type := strOf "unknown"
    headword := c4Title
    kana_reading := some (strOf "★あ")
    kanji_writing := some (strOf "★愛")
    part_of_speech := none
    conjugation := none
    definition_html := []
    definition_text := []
    raw_mdx_content := c4Title ++ '\n' :: [] }

/-- The spec's Headline invariant on `reading`: only kana (including the long
vowel mark and separator glyphs) and ASCII alphanumerics. -/
def spec_reading_invariant (r : List Char) : Bool :=
  r.all (fun c =>
    isHiragana c || isKatakana c || c == 'ー' || obunshaSymbols.contains c ||
    c.isAlphanum)

/-- The spec's Headline invariant on a non-empty `script`: only kanji, kana and
the small allowed symbol set. -/
def spec_script_invariant (s : List Char) : Bool :=
  s.all (fun c =>
    isKanjiChar c || isHiragana c || isKatakana c || obunshaSymbols.contains c)

/-- A headline on which `parse_headline` fails (kanji, no brackets). -/
def c4WTitle : List Char := strOf "愛あ"

/-- A markup block whose `.headword_kana` text needs sanitizing. -/
def c4WDoc : MarkupDoc :=
  { dataId := some (strOf "11")
    dataType := none
    nodes := [{ classes := [strOf "headword_kana"], text := strOf "あい☆" }]
    rootText := []
    rawHtml := [] }

/-- The entry `parse_entry_from_html` produces for `c4WTitle`/`c4WDoc`. -/
def c4WEntry : ObunshaDictEntry :=
  { data_id := strOf "11"
    data_type := strOf "unknown"
    headword := c4WTitle
    kana_reading := some (strOf "あい")
    kanji_writing := none
    part_of_speech := none
    conjugation := none
    definition_html := []
    definition_text := []
    raw_mdx_content := c4WTitle ++ '\n' :: [] }

/-- A headline record whose markup also carries a (different) reading marker. -/
def c5Title : List Char := strOf "あい【愛】"

/-- A markup block with a `.headword_kana` marker that differs from the
headline-derived reading. -/
def c5Doc : MarkupDoc :=
  { dataId := some (strOf "7")
    dataType := some (strOf "n")
    nodes := [{ classes := [strOf "headword_kana"], text := strOf "かき" }]
    rootText := []
    rawHtml := [] }

/-- The entry `parse_entry_from_html` produces for `c5Title`/`c5Doc`. -/
def c5Entry : ObunshaDictEntry :=
  { data_id := strOf "7"
    data_type := strOf "n"
    headword := c5Title
    kana_reading := some (strOf "あい")
    kanji_writing := some (strOf "愛")
    part_of_speech := none
    conjugation := none
    definition_html := []
    definition_text := []
    raw_mdx_content := c5Title ++ '\n' :: [] }

/-- A `jpdict.txt` record for exercising `parse_entry`. -/
def c10Doc : DictDoc :=
  { headKana := some (strOf " あい・")
    kanjiTexts := [none, some (strOf "【愛】")]
    pronunciationMatches := []
    nodes := [{ classes := [strOf "mean_normal"], text := strOf " love " }]
    allText := []
    containsItemKanji := false
    containsItemIppan := false
    containsItemKiso := false
    rawHtml := strOf "<container>x" }

/-- The entry `parse_entry` produces for `c10Doc`. -/
def c10Entry : DictionaryEntry :=
  { kana_entry := strOf "あい"
    kanji_form := some (strOf "愛")
    meaning := strOf "love"
    pronunciation := none
    entry_type := strOf "unknown"
    raw_html := strOf "<container>x" }

/-! Section: Generic lemmas about the string helpers -/

theorem mem_of_mem_rustTrim {c : Char} {l : List Char} (h : c ∈ rustTrim l) :
    c ∈ l := by
  unfold rustTrim at h
  have hpre := List.rdropWhile_prefix rustIsWhitespace (l.dropWhile rustIsWhitespace)
  have h1 : c ∈ l.dropWhile rustIsWhitespace := hpre.subset h
  exact (List.dropWhile_suffix rustIsWhitespace).subset h1

theorem mem_dropWhile_of_not {p : Char → Bool} {l : List Char} {a : Char}
    (ha : a ∈ l) (hp : p a = false) : a ∈ l.dropWhile p := by
  induction l with
  | nil => cases ha
  | cons b t ih =>
    rw [List.dropWhile_cons]
    by_cases hb : p b = true
    · simp only [hb, if_true]
      rcases List.mem_cons.mp ha with h | h
      · subst h; rw [hp] at hb; cases hb
      · exact ih h
    · simp only [Bool.not_eq_true] at hb
      simp only [hb, Bool.false_eq_true, if_false]
      exact ha

theorem mem_rustTrim_of_not {l : List Char} {a : Char}
    (ha : a ∈ l) (hp : rustIsWhitespace a = false) : a ∈ rustTrim l := by
  unfold rustTrim List.rdropWhile
  rw [List.mem_reverse]
  exact mem_dropWhile_of_not (List.mem_reverse.mpr (mem_dropWhile_of_not ha hp)) hp

theorem head_not_of_dropWhile_cons {p : Char → Bool} {l r : List Char} {c : Char}
    (h : l.dropWhile p = c :: r) : p c = false := by
  induction l with
  | nil => simp [List.dropWhile] at h
  | cons b t ih =>
    rw [List.dropWhile_cons] at h
    by_cases hb : p b = true
    · simp only [hb, if_true] at h
      exact ih h
    · simp only [Bool.not_eq_true] at hb
      simp only [hb, Bool.false_eq_true, if_false, List.cons.injEq] at h
      rw [← h.1]
      exact hb

theorem rustTrim_idem (l : List Char) : rustTrim (rustTrim l) = rustTrim l := by
  unfold rustTrim
  have h1 : List.dropWhile rustIsWhitespace
      ((l.dropWhile rustIsWhitespace).rdropWhile rustIsWhitespace) =
      (l.dropWhile rustIsWhitespace).rdropWhile rustIsWhitespace := by
    obtain ⟨t, ht⟩ := List.rdropWhile_prefix rustIsWhitespace
      (l.dropWhile rustIsWhitespace)
    rw [List.dropWhile_eq_self_iff]
    rcases hr : (l.dropWhile rustIsWhitespace).rdropWhile rustIsWhitespace with
      _ | ⟨c, r'⟩
    · intro hl
      simp at hl
    · intro hl
      rw [hr] at ht
      have hm : l.dropWhile rustIsWhitespace = c :: (r' ++ t) := by
        rw [← ht]
        rfl
      have hc : rustIsWhitespace c = false := head_not_of_dropWhile_cons hm
      simp [hc]
  rw [h1, List.rdropWhile_idempotent]

/-! Section: Sanitizer lemmas (obunsha_dict.rs) -/

theorem not_ws_of_isAlpha {c : Char} (h : c.isAlpha = true) :
    rustIsWhitespace c = false := by
  have hval : (65 ≤ c.toNat ∧ c.toNat ≤ 90) ∨ (97 ≤ c.toNat ∧ c.toNat ≤ 122) := by
    simp only [Char.isAlpha, Char.isUpper, Char.isLower, Bool.or_eq_true,
      Bool.and_eq_true, decide_eq_true_eq, Char.le_def] at h
    rcases h with ⟨h1, h2⟩ | ⟨h1, h2⟩
    · exact Or.inl ⟨h1, h2⟩
    · exact Or.inr ⟨h1, h2⟩
  simp only [rustIsWhitespace, Bool.or_eq_false_iff, Bool.and_eq_false_iff,
    beq_eq_false_iff_ne, ne_eq, decide_eq_false_iff_not, not_le]
  omega

theorem keep_kana_char_of_mem {x : List Char} {c : Char}
    (h : c ∈ clean_kana_text x) : keep_kana_char x c = true ∧ c ∈ x := by
  unfold clean_kana_text at h
  have h2 := mem_of_mem_rustTrim h
  exact ⟨(List.mem_filter.mp h2).2, (List.mem_filter.mp h2).1⟩

theorem alpha_mem_clean_kana_text {x : List Char}
    (h : x.any Char.isAlpha = true) :
    (clean_kana_text x).any Char.isAlpha = true := by
  rw [List.any_eq_true] at h
  obtain ⟨a, ha, hap⟩ := h
  rw [List.any_eq_true]
  refine ⟨a, ?_, hap⟩
  unfold clean_kana_text
  have hkeep : keep_kana_char x a = true := by
    unfold keep_kana_char
    split_ifs with h1 h2 h3 h4 h5 <;> try rfl
    exfalso
    apply h4
    simp only [Char.isAlphanum, Bool.or_eq_true]
    exact Or.inl hap
  exact mem_rustTrim_of_not (List.mem_filter.mpr ⟨ha, hkeep⟩)
    (not_ws_of_isAlpha hap)

theorem keep_kana_char_iff (t : List Char) (c : Char) :
    keep_kana_char t c = true ↔
      (isHiragana c = true ∨ isKatakana c = true ∨ c = 'ー' ∨
       c.isAlphanum = true ∨
       ((c = '-' ∨ c = '_') ∧ t.any Char.isAlpha = true)) := by
  unfold keep_kana_char
  split_ifs with h1 h2 h3 h4 h5 <;> simp_all

theorem keep_kana_char_again {x : List Char} {c : Char}
    (h : c ∈ clean_kana_text x) : keep_kana_char (clean_kana_text x) c = true := by
  have hk := (keep_kana_char_of_mem h).1
  rw [keep_kana_char_iff] at hk ⊢
  rcases hk with h1 | h2 | h3 | h4 | ⟨h5, h6⟩
  · exact Or.inl h1
  · exact Or.inr (Or.inl h2)
  · exact Or.inr (Or.inr (Or.inl h3))
  · exact Or.inr (Or.inr (Or.inr (Or.inl h4)))
  · exact Or.inr (Or.inr (Or.inr (Or.inr ⟨h5, alpha_mem_clean_kana_text h6⟩)))

theorem clean_kana_text_idem (x : List Char) :
    clean_kana_text (clean_kana_text x) = clean_kana_text x := by
  have h : clean_kana_text (clean_kana_text x) =
      rustTrim ((clean_kana_text x).filter (keep_kana_char (clean_kana_text x))) :=
    rfl
  rw [h, List.filter_eq_self.mpr (fun c hc => keep_kana_char_again hc)]
  exact rustTrim_idem _

theorem clean_kanji_text_idem (alnum : Char → Bool) (x : List Char) :
    clean_kanji_text alnum (clean_kanji_text alnum x) = clean_kanji_text alnum x := by
  have h : clean_kanji_text alnum (clean_kanji_text alnum x) =
      rustTrim ((clean_kanji_text alnum x).filter (keep_kanji_char alnum)) :=
    rfl
  have hkeep : ∀ c ∈ clean_kanji_text alnum x, keep_kanji_char alnum c = true := by
    intro c hc
    unfold clean_kanji_text at hc
    exact (List.mem_filter.mp (mem_of_mem_rustTrim hc)).2
  rw [h, List.filter_eq_self.mpr hkeep]
  exact rustTrim_idem _

theorem mem_of_mem_clean_kana_text {x : List Char} {c : Char}
    (h : c ∈ clean_kana_text x) : c ∈ x :=
  (keep_kana_char_of_mem h).2

theorem mem_of_mem_clean_kanji_text {alnum : Char → Bool} {x : List Char} {c : Char}
    (h : c ∈ clean_kanji_text alnum x) : c ∈ x := by
  unfold clean_kanji_text at h
  exact (List.mem_filter.mp (mem_of_mem_rustTrim h)).1

/-- C8: For every input string x and every context c (Reading or Script),
sanitize is idempotent — sanitize(sanitize(x, c), c) == sanitize(x, c) — and the
output contains no code point that is not present in the input.  (Stated for
every instantiation of the standard library's `char::is_alphanumeric` table.) -/
theorem C8_sanitize_idempotent_conservative (alnum : Char → Bool)
    (ctx : SanitizeCtx) (x : List Char) :
    sanitize alnum ctx (sanitize alnum ctx x) = sanitize alnum ctx x ∧
    ∀ c ∈ sanitize alnum ctx x, c ∈ x := by
  cases ctx with
  | reading =>
    exact ⟨clean_kana_text_idem x, fun c hc => mem_of_mem_clean_kana_text hc⟩
  | script =>
    exact ⟨clean_kanji_text_idem alnum x,
      fun c hc => mem_of_mem_clean_kanji_text hc⟩

/-! Section: data_cleaner.rs lemmas and claim theorems -/

theorem processLine_redirect_map (st : CleanerState) (line : List Char) :
    (processLine st line).1.redirect_map = st.redirect_map := by
  unfold processLine
  split_ifs <;> rfl

theorem clean_foldl_redirect_map (lines : List (List Char)) :
    ∀ (st : CleanerState) (evs : List CleanEvent),
      ((lines.foldl
        (fun acc line =>
          let r := processLine acc.1 line
          (r.1, acc.2 ++ r.2.toList))
        (st, evs)).1.redirect_map = st.redirect_map) := by
  induction lines with
  | nil => intro st evs; rfl
  | cons l t ih =>
    intro st evs
    rw [List.foldl_cons]
    exact Eq.trans (ih (processLine st l).1 (evs ++ (processLine st l).2.toList))
      (processLine_redirect_map st l)

theorem clean_exported_dict_redirect_map (lines : List (List Char)) :
    (clean_exported_dict lines).1.redirect_map = [] := by
  unfold clean_exported_dict
  exact clean_foldl_redirect_map lines cleanerInit []

/-- C1: the spec's boundary heuristic (trimmed line of 1–3 code points, >80%
kanji, at least one valid entry already emitted) is claimed to leave the
detector `Confirmed` and discard the kanji line.  The code does emit exactly N
entries and drops the kanji line, but `is_boundary_reached` measures the BYTE
length of the line (so the two-kanji line `人口`, 6 bytes, never matches), and
`clean_exported_dict` never invokes the detector at all: `boundary_reached`
stays `false`. -/
theorem C1_boundary_never_confirmed :
    (clean_exported_dict [c1Line, strOf "人口"]).1.valid_entries = 1 ∧
    (clean_exported_dict [c1Line, strOf "人口"]).2 =
      [CleanEvent.entryOut c1Line] ∧
    (clean_exported_dict [c1Line, strOf "人口"]).1.boundary_reached = false ∧
    is_likely_kanji_only (strOf "人口") = true ∧
    is_boundary_reached { cleanerInit with valid_entries := 1 }
      (strOf "人口") = false := by
  refine ⟨rfl, rfl, rfl, rfl, ?_⟩
  decide

/-- C2: on the sentinel record (`data-id="3011400"`), `is_boundary_reached`
returns `false` (the record is processed first), but no state transition ever
happens afterwards: the record following the sentinel is assembled and emitted
as an ordinary entry, the detector also reports `false` on it, and
`boundary_reached` remains `false` for the whole run — the claimed routing of
post-sentinel records to a cross-reference counter does not exist in the code. -/
theorem C2_sentinel_never_transitions :
    (clean_exported_dict [c2Sentinel, c2After]).1.valid_entries = 2 ∧
    (clean_exported_dict [c2Sentinel, c2After]).2 =
      [CleanEvent.entryOut c2Sentinel, CleanEvent.entryOut c2After] ∧
    (clean_exported_dict [c2Sentinel, c2After]).1.boundary_reached = false ∧
    is_boundary_reached cleanerInit c2Sentinel = false ∧
    is_boundary_reached { cleanerInit with valid_entries := 1 } c2After = false := by
  refine ⟨rfl, rfl, rfl, ?_, ?_⟩ <;> decide

/-- C7 counterexample: a `@@@LINK=` record increments the redirect counter but
no `RedirectEntry` is produced anywhere — the redirect map (the alias table of
the spec's data model) stays empty, so `get_stats` reports `(0, 1, 0)`. -/
theorem C7_redirect_not_emitted :
    (clean_exported_dict [strOf "@@@LINK=abc"]).1.redirect_map = [] ∧
    (clean_exported_dict [strOf "@@@LINK=abc"]).1.redirect_entries = 1 ∧
    get_stats (clean_exported_dict [strOf "@@@LINK=abc"]).1 = (0, 1, 0) := by
  exact ⟨rfl, rfl, rfl⟩

/-- C7 (amended): for every record beginning with `@@@LINK=`, the cleaner
computes the prefix-stripped-and-trimmed target and increments the redirect
counter unconditionally, but stores no `RedirectEntry`: the state is unchanged
except for the counter (in particular `redirect_map` is untouched). -/
theorem C7_amended_redirect_counted_only (st : CleanerState) (line : List Char)
    (h : redirectMarker.isPrefixOf line = true) :
    processLine st line =
      ({ st with redirect_entries := st.redirect_entries + 1 },
        some (CleanEvent.redirectSeen (rustTrim (line.drop 8)))) := by
  have h0 := h
  rw [ List.isPrefixOf_iff_prefix] at h
  obtain ⟨t2, ht2⟩ := h
  have hmem : '@' ∈ line := by
    rw [← ht2]
    simp [redirectMarker, strOf]
  have hne : (rustTrim line).isEmpty = false := by
    have h1 : '@' ∈ rustTrim line := mem_rustTrim_of_not hmem (by decide)
    rcases hr : rustTrim line with _ | ⟨c, r⟩
    · rw [hr] at h1
      cases h1
    · rfl
  unfold processLine
  simp only [hne, Bool.false_eq_true, if_false, h0, if_true]
  rfl

/-- C9 counterexample: a line that is neither blank, nor a redirect, nor an HTML
entry is silently dropped; the run's reported counters are
`(valid, redirect, redirect_map.len()) = (0, 0, 0)` even though one record was
skipped — no skipped/malformed counter exists. -/
theorem C9_no_skipped_counter :
    get_stats (clean_exported_dict [strOf "garbage"]).1 = (0, 0, 0) ∧
    spec_skipped_count [strOf "garbage"] = 1 ∧
    (clean_exported_dict [strOf "garbage"]).2 = [] := by
  exact ⟨rfl, rfl, rfl⟩

/-- C9 (amended): no extraction error is fatal — a record whose markup lacks the
mandatory `data-id` makes `parse_entry_from_html` return `None` and the caller
just drops it — but the three reported counters are valid-entry count, redirect
count and the redirect map's size; the map is never populated, so the third
counter is always `0` and skip events are not counted anywhere. -/
theorem C9_amended_counters :
    (∀ lines : List (List Char),
      get_stats (clean_exported_dict lines).1 =
        ((clean_exported_dict lines).1.valid_entries,
         (clean_exported_dict lines).1.redirect_entries, 0)) ∧
    (∀ (alnum : Char → Bool) (title : List Char) (doc : MarkupDoc),
      doc.dataId = none → parse_entry_from_html alnum title doc = none) := by
  constructor
  · intro lines
    unfold get_stats
    rw [clean_exported_dict_redirect_map]
    rfl
  · intro alnum title doc h
    unfold parse_entry_from_html
    rw [h]

theorem C9_amended_counters_witness :
    (({ dataId := none, dataType := none, nodes := [], rootText := [],
        rawHtml := [] } : MarkupDoc).dataId = none) ∧
    parse_entry_from_html (fun c => c.isAlphanum) (strOf "x")
      { dataId := none, dataType := none, nodes := [], rootText := [],
        rawHtml := [] } = none :=
  ⟨rfl, C9_amended_counters.2 (fun c => c.isAlphanum) (strOf "x")
    { dataId := none, dataType := none, nodes := [], rootText := [],
      rawHtml := [] } rfl⟩

theorem C7_amended_redirect_counted_only_witness :
    redirectMarker.isPrefixOf (strOf "@@@LINK=abc") = true ∧
    processLine cleanerInit (strOf "@@@LINK=abc") =
      ({ cleanerInit with redirect_entries := 1 },
        some (CleanEvent.redirectSeen (strOf "abc"))) :=
  ⟨rfl, C7_amended_redirect_counted_only cleanerInit (strOf "@@@LINK=abc") rfl⟩

/-! Section: Byte-index / code-point-index correspondence (parse_headline) -/

theorem byteLen_cons (x : Char) (t : List Char) :
    byteLen (x :: t) = x.utf8Size + byteLen t := by
  simp [byteLen]

theorem charIdxOf_lt_length {l : List Char} {c : Char} {i : Nat}
    (h : charIdxOf l c = some i) : i < l.length := by
  induction l generalizing i with
  | nil => simp [charIdxOf] at h
  | cons x xs ih =>
    unfold charIdxOf at h
    by_cases hx : x = c
    · simp only [hx, if_true, Option.some.injEq] at h
      simp [← h]
    · simp only [hx, if_false] at h
      cases hq : charIdxOf xs c with
      | none => rw [hq] at h; cases h
      | some j =>
        rw [hq] at h
        simp only [Option.map_some', Option.some.injEq] at h
        have := ih hq
        simp [← h]
        omega

theorem rustFindChar_eq (l : List Char) (c : Char) :
    rustFindChar l c = (charIdxOf l c).map (fun i => byteLen (l.take i)) := by
  induction l with
  | nil => rfl
  | cons x xs ih =>
    unfold rustFindChar charIdxOf
    by_cases hx : x = c
    · simp [hx, byteLen]
    · simp only [hx, if_false]
      rw [ih]
      cases hq : charIdxOf xs c with
      | none => simp [hq]
      | some j => simp [hq, List.take_succ_cons, byteLen_cons]

theorem charsInBytes_bytePos :
    ∀ (l : List Char) (i : Nat), i ≤ l.length →
      charsInBytes l (byteLen (l.take i)) = i := by
  intro l
  induction l with
  | nil =>
    intro i hi
    simp at hi
    subst hi
    rfl
  | cons x xs ih =>
    intro i hi
    cases i with
    | zero =>
      have h0 : byteLen ((x :: xs).take 0) = 0 := rfl
      rw [h0]
      unfold charsInBytes
      rw [if_neg (by have := Char.utf8Size_pos x; omega)]
    | succ n =>
      rw [List.take_succ_cons, byteLen_cons]
      unfold charsInBytes
      rw [if_pos (Nat.le_add_right _ _), Nat.add_sub_cancel_left]
      have hn : n ≤ xs.length := by simpa using hi
      rw [ih n hn]

theorem bytePos_lt :
    ∀ (l : List Char) (i j : Nat), i < j → j ≤ l.length →
      byteLen (l.take i) < byteLen (l.take j) := by
  intro l
  induction l with
  | nil =>
    intro i j hij hj
    simp at hj
    omega
  | cons x xs ih =>
    intro i j hij hj
    cases j with
    | zero => omega
    | succ m =>
      rw [List.take_succ_cons, byteLen_cons]
      cases i with
      | zero =>
        have h0 : byteLen ((x :: xs).take 0) = 0 := rfl
        rw [h0]
        have := Char.utf8Size_pos x
        omega
      | succ n =>
        rw [List.take_succ_cons, byteLen_cons]
        have hm : m ≤ xs.length := by simpa using hj
        have := ih n m (by omega) hm
        omega

theorem parse_headline_eq_spec (l : List Char) :
    parse_headline l = parse_headline_spec l := by
  unfold parse_headline parse_headline_spec
  dsimp only
  rw [rustFindChar_eq, rustFindChar_eq]
  cases hop : charIdxOf (rustTrim l) '【' with
  | none => simp [hop]
  | some i =>
    cases hcl : charIdxOf (rustTrim l) '】' with
    | none => simp [hop, hcl]
    | some j =>
      simp only [hop, hcl, Option.map_some']
      have hilt : i < (rustTrim l).length := charIdxOf_lt_length hop
      have hjlt : j < (rustTrim l).length := charIdxOf_lt_length hcl
      by_cases hij : i < j
      · have hb : byteLen ((rustTrim l).take i) < byteLen ((rustTrim l).take j) :=
          bytePos_lt (rustTrim l) i j hij (le_of_lt hjlt)
        rw [if_pos hb,
          charsInBytes_bytePos (rustTrim l) i (le_of_lt hilt),
          charsInBytes_bytePos (rustTrim l) j (le_of_lt hjlt),
          if_pos ⟨hij, hilt, hjlt⟩]
        by_cases hk : (rustTrim l).take i ≠ []
        · rw [if_pos hk]
          dsimp only
          rw [if_pos ⟨hij, hk⟩, Nat.sub_sub]
        · rw [if_neg hk]
          dsimp only
          rw [if_neg (show ¬(i < j ∧ (rustTrim l).take i ≠ []) from
            fun hcon => hk hcon.2)]
      · have hnb : ¬ byteLen ((rustTrim l).take i) < byteLen ((rustTrim l).take j) := by
          rcases Nat.lt_or_ge j i with hlt | hge
          · have := bytePos_lt (rustTrim l) j i hlt (le_of_lt hilt)
            omega
          · have : i = j := by omega
            subst this
            omega
        rw [if_neg hnb]
        dsimp only
        rw [if_neg (show ¬(i < j ∧ (rustTrim l).take i ≠ []) from
          fun hcon => hij hcon.1)]

/-- C3 counterexample: `"【あ】"` contains the open delimiter and a close
delimiter after it, and the text before the open delimiter is empty, so the
claim demands `None`; the code instead falls through to the no-bracket rule and
returns the whole line (brackets included) as the reading. -/
theorem C3_empty_reading_not_none :
    parse_headline (strOf "【あ】") = some (strOf "【あ】", []) ∧
    parse_headline (strOf "【あ】") ≠ none := by
  refine ⟨rfl, ?_⟩
  decide

/-- C3 (amended): `parse_headline` equals the code-point-index description in
which reading and script are the RAW (unsanitized) substrings around the first
`【` and the first `】` of the whole trimmed line (the bracket branch applies
only when the open delimiter precedes the close delimiter and the text before
`【` is non-empty; in every other case, including an empty pre-bracket text,
the whole trimmed line is returned as reading exactly when it contains no kanji,
else the parse fails); the four documented examples hold. -/
theorem C3_amended_parse_headline :
    (∀ l : List Char, parse_headline l = parse_headline_spec l) ∧
    parse_headline (strOf "あい【愛】") = some (strOf "あい", strOf "愛") ∧
    parse_headline (strOf "ば【】") = some (strOf "ば", []) ∧
    parse_headline (strOf "ＣＤ") = some (strOf "ＣＤ", []) ∧
    parse_headline (strOf "愛あい") = none :=
  ⟨parse_headline_eq_spec, rfl, rfl, rfl, rfl⟩

/-! Section: Meaning-extraction lemmas (extract_definition_text) -/

theorem meanings_inner_foldl (sel : List Char) (nodes : List MNode) :
    ∀ acc : List (List Char),
      nodes.foldl
        (fun acc2 n =>
          if n.classes.contains sel then
            let t := rustTrim n.text
            if t = [] then acc2 else acc2 ++ [t]
          else acc2)
        acc = acc ++ meaningTextsOf nodes sel := by
  induction nodes with
  | nil =>
    intro acc
    simp [meaningTextsOf]
  | cons n ns ih =>
    intro acc
    rw [List.foldl_cons]
    by_cases hc : n.classes.contains sel = true
    · by_cases ht : rustTrim n.text = []
      · simp only [hc, if_true, ht, meaningTextsOf, List.filterMap_cons]
        rw [ih]
        rfl
      · simp only [hc, if_true, ht, if_neg ht, meaningTextsOf, List.filterMap_cons]
        rw [ih]
        simp [meaningTextsOf, ht, List.append_assoc]
    · simp only [Bool.not_eq_true] at hc
      simp only [hc, Bool.false_eq_true, if_false, meaningTextsOf,
        List.filterMap_cons]
      rw [ih]
      rfl

theorem meanings_outer_foldl (nodes : List MNode) :
    ∀ (sels : List (List Char)) (acc : List (List Char)),
      sels.foldl
        (fun acc sel =>
          nodes.foldl
            (fun acc2 n =>
              if n.classes.contains sel then
                let t := rustTrim n.text
                if t = [] then acc2 else acc2 ++ [t]
              else acc2)
            acc)
        acc = acc ++ (sels.map (meaningTextsOf nodes)).flatten := by
  intro sels
  induction sels with
  | nil =>
    intro acc
    simp
  | cons s ss ih =>
    intro acc
    rw [List.foldl_cons, meanings_inner_foldl s nodes acc, ih]
    simp [List.append_assoc]

theorem collectMeanings_eq (nodes : List MNode) :
    collectMeanings nodes = (meaningSelectors.map (meaningTextsOf nodes)).flatten :=
  (meanings_outer_foldl nodes meaningSelectors []).trans (List.nil_append _)

/-- C6 (amended): `definition_text` is the trimmed texts of matching nodes
grouped by meaning marker in the fixed priority order of the marker list
(document order within one marker), empty texts skipped, joined with a single
space and without de-duplication; when no marker matches, the full flattened
text of the block, trimmed. -/
theorem C6_amended_definition_text (doc : MarkupDoc) :
    extract_definition_text doc = extract_definition_text_grouped doc := by
  unfold extract_definition_text extract_definition_text_grouped
  rw [collectMeanings_eq]

/-- C6 counterexample: with a `mean_lv_2` node ("B") preceding a `mean_normal`
node ("A") in document order, the code returns "A B" (selector-priority order),
not the claimed document-order concatenation "B A". -/
theorem C6_not_document_order :
    extract_definition_text c6Doc = strOf "A B" ∧
    doc_order_definition_spec c6Doc = strOf "B A" ∧
    ¬ extract_definition_text c6Doc = doc_order_definition_spec c6Doc := by
  refine ⟨rfl, rfl, ?_⟩
  decide

/-! Section: parse_entry_from_html claim theorems (C4, C5) -/

/-- C4 counterexample: a headline-derived entry stores the RAW headline
substrings: for the title `★あ【★愛】` the produced entry has reading `★あ` and
script `★愛`, violating the claimed invariant (★ is neither kana, ASCII-alnum,
kanji, nor an allowed symbol) — the headline path performs no sanitization. -/
theorem C4_headline_fields_unsanitized :
    parse_entry_from_html (fun c => c.isAlphanum) c4Title c4Doc = some c4Entry ∧
    c4Entry.kana_reading = some (strOf "★あ") ∧
    spec_reading_invariant (strOf "★あ") = false ∧
    c4Entry.kanji_writing = some (strOf "★愛") ∧
    spec_script_invariant (strOf "★愛") = false := by
  exact ⟨rfl, rfl, rfl, rfl, rfl⟩

theorem clean_kana_text_chars (t : List Char) :
    (clean_kana_text t).all
      (fun c =>
        isHiragana c || isKatakana c || c == 'ー' || c.isAlphanum ||
        c == '-' || c == '_') = true := by
  rw [List.all_eq_true]
  intro c hc
  have hk := (keep_kana_char_of_mem hc).1
  rw [keep_kana_char_iff] at hk
  rcases hk with h1 | h1 | h1 | h1 | ⟨h1, _⟩
  · simp [h1]
  · simp [h1]
  · subst h1
    simp
  · simp [h1]
  · rcases h1 with h1 | h1 <;> (subst h1; simp)

/-- C4 (amended): entries whose reading derives from the headline carry the raw
substring and may contain arbitrary code points; only when headline parsing
fails is the markup-derived reading sanitized, and then it consists of
hiragana, katakana, `ー`, ASCII alphanumerics and (for texts containing an
ASCII letter) `-`/`_` only. -/
theorem C4_amended_markup_reading_sanitized (alnum : Char → Bool)
    (title : List Char) (doc : MarkupDoc) (e : ObunshaDictEntry) (r : List Char)
    (h : parse_entry_from_html alnum title doc = some e)
    (hh : parse_headline title = none)
    (hr : e.kana_reading = some r) :
    r.all
      (fun c =>
        isHiragana c || isKatakana c || c == 'ー' || c.isAlphanum ||
        c == '-' || c == '_') = true := by
  cases hd : doc.dataId with
  | none =>
    unfold parse_entry_from_html at h
    rw [hd] at h
    cases h
  | some id =>
    unfold parse_entry_from_html at h
    rw [hd, hh] at h
    simp only [Option.map_none', Option.some.injEq] at h
    subst h
    simp only at hr
    rcases h1 : selectFirstText doc.nodes (strOf "headword_kana") with _ | t1
    · rw [h1] at hr
      simp only at hr
      rcases h2 : selectFirstText doc.nodes (strOf "headword_ryaku") with _ | t2
      · rw [h2] at hr
        cases hr
      · rw [h2] at hr
        unfold kanaCleanedNonempty at hr; dsimp only at hr
        by_cases he : clean_kana_text t2 = []
        · rw [if_pos he] at hr
          cases hr
        · rw [if_neg he] at hr
          have := Option.some.inj hr
          rw [← this]
          exact clean_kana_text_chars t2
    · rw [h1] at hr
      unfold kanaCleanedNonempty at hr; dsimp only at hr
      by_cases he : clean_kana_text t1 = []
      · rw [if_pos he] at hr
        simp only at hr
        rcases h2 : selectFirstText doc.nodes (strOf "headword_ryaku") with _ | t2
        · rw [h2] at hr
          cases hr
        · rw [h2] at hr
          dsimp only at hr
          by_cases he2 : clean_kana_text t2 = []
          · rw [if_pos he2] at hr
            cases hr
          · rw [if_neg he2] at hr
            have := Option.some.inj hr
            rw [← this]
            exact clean_kana_text_chars t2
      · rw [if_neg he] at hr
        simp only at hr
        have := Option.some.inj hr
        rw [← this]
        exact clean_kana_text_chars t1

theorem C4_amended_markup_reading_sanitized_witness :
    parse_headline c4WTitle = none ∧
    parse_entry_from_html (fun c => c.isAlphanum) c4WTitle c4WDoc = some c4WEntry ∧
    c4WEntry.kana_reading = some (strOf "あい") ∧
    (strOf "あい").all
      (fun c =>
        isHiragana c || isKatakana c || c == 'ー' || c.isAlphanum ||
        c == '-' || c == '_') = true :=
  ⟨rfl, rfl, rfl,
    C4_amended_markup_reading_sanitized (fun c => c.isAlphanum) c4WTitle c4WDoc
      c4WEntry (strOf "あい") rfl rfl rfl⟩

/-- C5: whenever headline parsing succeeds, the headline-derived reading wins
over any markup-embedded reading marker (whatever the marker says); only when
headline parsing fails does extraction fall back to the `.headword_kana`
marker and then to the `.headword_ryaku` abbreviation marker, the first
candidate with non-empty sanitized text winning. -/
theorem C5_reading_priority (alnum : Char → Bool) (title : List Char)
    (doc : MarkupDoc) (e : ObunshaDictEntry)
    (h : parse_entry_from_html alnum title doc = some e) :
    (∀ k j, parse_headline title = some (k, j) → e.kana_reading = some k) ∧
    (parse_headline title = none →
      e.kana_reading = firstSome
        [(selectFirstText doc.nodes (strOf "headword_kana")).bind kanaCleanedNonempty,
         (selectFirstText doc.nodes (strOf "headword_ryaku")).bind kanaCleanedNonempty]) := by
  cases hd : doc.dataId with
  | none =>
    unfold parse_entry_from_html at h
    rw [hd] at h
    cases h
  | some id =>
    constructor
    · intro k j hkj
      unfold parse_entry_from_html at h
      rw [hd, hkj] at h
      simp only [Option.map_some', Option.some.injEq] at h
      subst h
      rfl
    · intro hn
      unfold parse_entry_from_html at h
      rw [hd, hn] at h
      simp only [Option.map_none', Option.some.injEq] at h
      subst h
      dsimp only
      cases h1 : selectFirstText doc.nodes (strOf "headword_kana") with
      | none =>
        cases h2 : selectFirstText doc.nodes (strOf "headword_ryaku") with
        | none => simp [firstSome, h1, h2]
        | some t2 =>
          by_cases he : clean_kana_text t2 = []
          · have hx : kanaCleanedNonempty t2 = none := by
              simp [kanaCleanedNonempty, he]
            simp [firstSome, h1, h2, hx, kanaCleanedNonempty, he]
          · have hx : kanaCleanedNonempty t2 = some (clean_kana_text t2) := by
              simp [kanaCleanedNonempty, he]
            simp [firstSome, h1, h2, hx, kanaCleanedNonempty, he]
      | some t1 =>
        by_cases he : clean_kana_text t1 = []
        · have hx : kanaCleanedNonempty t1 = none := by
            simp [kanaCleanedNonempty, he]
          cases h2 : selectFirstText doc.nodes (strOf "headword_ryaku") with
          | none => simp [firstSome, h1, h2, hx, kanaCleanedNonempty, he]
          | some t2 =>
            by_cases he2 : clean_kana_text t2 = []
            · have hx2 : kanaCleanedNonempty t2 = none := by
                simp [kanaCleanedNonempty, he2]
              simp [firstSome, h1, h2, hx, hx2, kanaCleanedNonempty, he, he2]
            · have hx2 : kanaCleanedNonempty t2 = some (clean_kana_text t2) := by
                simp [kanaCleanedNonempty, he2]
              simp [firstSome, h1, h2, hx, hx2, kanaCleanedNonempty, he, he2]
        · have hx : kanaCleanedNonempty t1 = some (clean_kana_text t1) := by
            simp [kanaCleanedNonempty, he]
          simp [firstSome, h1, hx, kanaCleanedNonempty, he]

theorem C5_reading_priority_witness :
    parse_headline c5Title = some (strOf "あい", strOf "愛") ∧
    parse_entry_from_html (fun c => c.isAlphanum) c5Title c5Doc = some c5Entry ∧
    selectFirstText c5Doc.nodes (strOf "headword_kana") = some (strOf "かき") ∧
    c5Entry.kana_reading = some (strOf "あい") :=
  ⟨rfl, rfl, rfl,
    (C5_reading_priority (fun c => c.isAlphanum) c5Title c5Doc c5Entry rfl).1
      (strOf "あい") (strOf "愛") rfl⟩

/-! Section: parser.rs claim theorems (C10) -/

theorem clean_kanji_ne_nil {t k : List Char} (h : clean_kanji t = some k) :
    k ≠ [] := by
  unfold clean_kanji at h
  dsimp only at h
  by_cases he :
      rustTrim ((rustTrim t).filter (fun c => !(parserKanjiStrip.contains c))) = []
  · rw [if_pos he] at h
    cases h
  · rw [if_neg he] at h
    have := Option.some.inj h
    rw [← this]
    exact he

theorem findKanjiForm_ne_nil :
    ∀ {ts : List (Option (List Char))} {k : List Char},
      findKanjiForm ts = some k → k ≠ [] := by
  intro ts
  induction ts with
  | nil =>
    intro k h
    cases h
  | cons o rest ih =>
    intro k h
    cases o with
    | none =>
      rw [show findKanjiForm (none :: rest) = findKanjiForm rest from rfl] at h
      exact ih h
    | some t =>
      cases hc : clean_kanji t with
      | some k2 =>
        rw [show findKanjiForm (some t :: rest) =
            (match clean_kanji t with
             | some k => some k
             | none => findKanjiForm rest) from rfl, hc] at h
        have := Option.some.inj h
        rw [← this]
        exact clean_kanji_ne_nil hc
      | none =>
        rw [show findKanjiForm (some t :: rest) =
            (match clean_kanji t with
             | some k => some k
             | none => findKanjiForm rest) from rfl, hc] at h
        exact ih h

/-- C10: `parse_entry` returns `None` whenever the cleaned kana headword is
empty or the extracted meaning is empty; consequently every entry it returns
has a non-empty `kana_entry`, a non-empty `meaning`, and a `kanji_form` that
never wraps the empty string. -/
theorem C10_parse_entry_invariants :
    (∀ (doc : DictDoc) (e : DictionaryEntry), parse_entry doc = some e →
      e.kana_entry ≠ [] ∧ e.meaning ≠ [] ∧
      ∀ k, e.kanji_form = some k → k ≠ []) ∧
    (∀ (doc : DictDoc) (t : List Char), doc.headKana = some t →
      clean_kana t = [] → parse_entry doc = none) ∧
    (∀ doc : DictDoc, extract_meaning doc = [] → parse_entry doc = none) := by
  refine ⟨?_, ?_, ?_⟩
  · intro doc e h
    unfold parse_entry at h
    cases hk : doc.headKana with
    | none =>
      rw [hk] at h
      cases h
    | some rawKana =>
      rw [hk] at h
      dsimp only at h
      by_cases hc : clean_kana rawKana = []
      · rw [if_pos hc] at h
        cases h
      · rw [if_neg hc] at h
        by_cases hm : extract_meaning doc = []
        · rw [if_pos hm] at h
          cases h
        · rw [if_neg hm] at h
          have he := Option.some.inj h
          subst he
          refine ⟨hc, hm, ?_⟩
          intro k hkf
          exact findKanjiForm_ne_nil hkf
  · intro doc t ht hc
    unfold parse_entry
    rw [ht]
    dsimp only
    rw [if_pos hc]
  · intro doc hm
    unfold parse_entry
    cases ht : doc.headKana with
    | none => rfl
    | some t =>
      dsimp only
      by_cases hc : clean_kana t = []
      · rw [if_pos hc]
      · rw [if_neg hc]
        rw [if_pos hm]

theorem C10_parse_entry_invariants_witness :
    parse_entry c10Doc = some c10Entry ∧
    (c10Entry.kana_entry ≠ [] ∧ c10Entry.meaning ≠ [] ∧
      ∀ k, c10Entry.kanji_form = some k → k ≠ []) :=
  ⟨rfl, C10_parse_entry_invariants.1 c10Doc c10Entry rfl⟩

end JpDict
